import Mathlib

/-!
Shallow embedding of `salt/modules/yumpkg5.py`, the yum package-manager
adapter.  Every external effect (the captured stdout of the yum/rpm
subprocesses, the `cpuarch` grain, and the version comparator supplied by
the host's `pkg_resource` module) is passed in as an explicit parameter;
each definition below is the pure translation of the corresponding Python
function or code block, referenced by its line numbers in the source.
-/

/-- The whitespace characters recognised by Python's no-argument
`str.split()`. -/
def pySpace (c : Char) : Bool :=
  c == ' ' || c == '\t' || c == '\n' || c == '\r' || c == '\x0b' || c == '\x0c'

/-- Worker for `pySplit`: accumulate the current token (reversed) and cut
at every whitespace run. -/
def pySplitAux : List Char → List Char → List (List Char)
  | [], cur => if cur.isEmpty then [] else [cur.reverse]
  | c :: rest, cur =>
    if pySpace c then
      if cur.isEmpty then pySplitAux rest [] else cur.reverse :: pySplitAux rest []
    else pySplitAux rest (c :: cur)

/-- Embedding of Python `str.split()` (no argument): split on runs of
whitespace, never producing empty tokens. -/
def pySplit (s : String) : List String :=
  (pySplitAux s.toList []).map (fun l => String.mk l)

/-- Worker for `pySplitlines`: cut at every newline. -/
def linesAux : List Char → List Char → List (List Char)
  | [], cur => [cur.reverse]
  | c :: rest, cur =>
    if c == '\n' then cur.reverse :: linesAux rest [] else linesAux rest (c :: cur)

/-- Embedding of `str.splitlines()` for newline-separated text (the tool
output only uses plain line feeds): split at every newline and drop the
final empty piece a trailing newline would otherwise produce. -/
def pySplitlines (s : String) : List String :=
  let ls := linesAux s.toList []
  (if ls.getLast? = some [] then ls.dropLast else ls).map (fun l => String.mk l)

/-- Character-list test that the first list opens the second one. -/
def isPrefixOfChars : List Char → List Char → Bool
  | [], _ => true
  | _ :: _, [] => false
  | a :: as, b :: bs => a == b && isPrefixOfChars as bs

/-- Embedding of Python `s.startswith(pre)`. -/
def startsWithStr (s pre : String) : Bool :=
  isPrefixOfChars pre.toList s.toList

/-- Worker for `rpartitionBeforeDot`: the characters before the last dot,
or `none` when the list has no dot. -/
def rpartBeforeAux : List Char → Option (List Char)
  | [] => none
  | c :: rest =>
    match rpartBeforeAux rest with
    | some l => some (c :: l)
    | none => if c == '.' then some [] else none

/-- Embedding of `namearchstr.rpartition('.')[0]` (yumpkg5.py line 49):
everything before the last dot, and the empty string when the token
contains no dot at all. -/
def rpartitionBeforeDot (s : String) : String :=
  match rpartBeforeAux s.toList with
  | some l => String.mk l
  | none => ""

/-- Embedding of the per-line logic of `_parse_yum` (yumpkg5.py lines
44-50): skip `Loaded plugin` chatter, accept exactly the lines that split
into three whitespace-separated tokens, and strip the architecture tag
from the first token. -/
def parseLine (line : String) : Option (String × String × String) :=
  if startsWithStr line "Loaded plugin" then none
  else
    match pySplit line with
    | [namearchstr, pkgver, pkgstatus] =>
      some (rpartitionBeforeDot namearchstr, pkgver, pkgstatus)
    | _ => none

/-- Embedding of the parsing half of `_parse_yum` (yumpkg5.py lines
34-51); the captured stdout of the yum invocation is the argument. -/
def parseYum (out : String) : List (String × String × String) :=
  (pySplitlines out).filterMap parseLine

/-- Embedding of `_list_removed` (yumpkg5.py lines 54-62): the keys of
`old` that are not keys of `new`, in `old`'s order. -/
def list_removed : List (String × String) → List (String × String) → List String
  | [], _ => []
  | p :: rest, new =>
    if (new.map Prod.fst).contains p.1 then list_removed rest new
    else p.1 :: list_removed rest new

/-- Embedding of `_get_repo_options` (yumpkg5.py lines 65-92); a missing
keyword argument is the empty string, matching `kwargs.get(..., '')`. -/
def get_repo_options (fromrepo repo disablerepo enablerepo : String) : String :=
  let fromrepo := if repo ≠ "" ∧ fromrepo = "" then repo else fromrepo
  if fromrepo ≠ "" then
    "--disablerepo=\"*\" --enablerepo=\"" ++ fromrepo ++ "\""
  else
    (if disablerepo ≠ "" then "--disablerepo=\"" ++ disablerepo ++ "\" " else "") ++
    (if enablerepo ≠ "" then "--enablerepo=\"" ++ enablerepo ++ "\" " else "")

/-- Python `dict` lookup `d.get(k)` on an insertion-ordered association
list. -/
def dictGet : List (String × String) → String → Option String
  | [], _ => none
  | (a, b) :: rest, k => if a = k then some b else dictGet rest k

/-- Python `dict` assignment `d[k] = v` on an insertion-ordered
association list: update the existing entry in place, append a fresh
entry otherwise. -/
def dictSet : List (String × String) → String → String → List (String × String)
  | [], k, v => [(k, v)]
  | (a, b) :: rest, k, v =>
    if a = k then (k, v) :: rest else (a, b) :: dictSet rest k v

/-- The version carried by the last parsed listing row whose name matches,
if any: the value `ret[name]` holds after the assignment loop of
`latest_version` (yumpkg5.py lines 123-124). -/
def lastAvailOpt (n : String) : List (String × String × String) → Option String
  | [] => none
  | r :: rest =>
    match lastAvailOpt n rest with
    | some v => some v
    | none => if r.1 = n then some r.2.1 else none

/-- Embedding of `latest_version` (yumpkg5.py lines 95-128).  `out` is the
captured stdout of the `yum -q ... list available ...` invocation; the
repo options only shape that command and are elided into `out`.  The
result is a bare string for zero or one requested names and a dict for
two or more, as in the source. -/
def latest_version (names : List String) (out : String) :
    String ⊕ List (String × String) :=
  if names.length = 0 then Sum.inl ""
  else
    let ret := names.foldl (fun d nm => dictSet d nm "") []
    let ret := (parseYum out).foldl (fun d r => dictSet d r.1 r.2.1) ret
    if names.length = 1 then Sum.inl ((dictGet ret (names.headD "")).getD "")
    else Sum.inr ret

/-- Embedding of `upgrade_available` (yumpkg5.py lines 134-142):
`latest_version(name) != ''`. -/
def upgrade_available (name : String) (out : String) : Bool :=
  match latest_version [name] out with
  | Sum.inl s => !(s == "")
  | Sum.inr _ => true

/-- Modelled from the spec: the operator evaluation `compare(pkg1, oper,
pkg2)` of section 4.5, built atop the tool-defined `compareVersions`
result (-1, 0, 1, or undefined).  The comparator itself lives outside
this repository (in `pkg_resource`) and is passed in as `cmpV`; an
undefined comparison affirms no operator. -/
def pkgCompare (cmpV : String → String → Option Int)
    (pkg1 oper pkg2 : String) : Bool :=
  match cmpV pkg1 pkg2 with
  | none => false
  | some c =>
    if oper = "==" then c == 0
    else if oper = "!=" then !(c == 0)
    else if oper = "<" then decide (c < 0)
    else if oper = "<=" then decide (c ≤ 0)
    else if oper = ">" then decide (c > 0)
    else if oper = ">=" then decide (c ≥ 0)
    else false

/-- Embedding of Python `s.endswith(suf)`. -/
def strEndsWith (s suf : String) : Bool :=
  isPrefixOfChars suf.toList.reverse s.toList.reverse

/-- Embedding of Python `s[:-k]`. -/
def strDropRight (s : String) (k : Nat) : String :=
  String.mk (s.toList.take (s.toList.length - k))

/-- The quoted `"name-version[arch]"` target string built by `install`
(yumpkg5.py lines 326-334), including the `.i686`-on-`x86_64` rewrite. -/
def pinnedTargetStr (cpuarch pkgname v : String) : String :=
  if cpuarch == "x86_64" && strEndsWith pkgname ".i686" then
    "\"" ++ strDropRight pkgname 5 ++ "-" ++ v ++ ".i686" ++ "\""
  else
    "\"" ++ pkgname ++ "-" ++ v ++ "\""

/-- The bucket test of `install` (yumpkg5.py lines 335-337): no installed
version, or the requested version compares `>=` the installed one. -/
def installCond (cmpV : String → String → Option Int)
    (old : List (String × String)) (pkgname v : String) : Bool :=
  let cver := (dictGet old pkgname).getD ""
  (cver == "") || pkgCompare cmpV v ">=" cver

/-- Embedding of the target-partition loop of `install` (yumpkg5.py lines
318-340) over the `repository`-type `pkg_params` items: unpinned names go
straight to the install bucket, pinned ones go to the install or the
downgrade bucket according to `installCond`. -/
def installPartition (cpuarch : String) (cmpV : String → String → Option Int)
    (old : List (String × String)) :
    List (String × Option String) → List String × List String
  | [] => ([], [])
  | (pkgname, ver) :: rest =>
    let r := installPartition cpuarch cmpV old rest
    match ver with
    | none => (pkgname :: r.1, r.2)
    | some v =>
      if installCond cmpV old pkgname v then
        (pinnedTargetStr cpuarch pkgname v :: r.1, r.2)
      else
        (r.1, pinnedTargetStr cpuarch pkgname v :: r.2)

/-- Embedding of Python `' '.join(...)`. -/
def joinSpace : List String → String
  | [] => ""
  | [s] => s
  | s :: rest => s ++ " " ++ joinSpace rest

/-- The `yum -y {repo} {gpgcheck} <op> {pkg}` command string of
yumpkg5.py lines 345-349 and 353-357. -/
def yumTxnCmd (op repo_arg : String) (skip_verify : Bool)
    (pkgs : List String) : String :=
  "yum -y " ++ repo_arg ++ " " ++ (if skip_verify then "--nogpgcheck" else "")
    ++ " " ++ op ++ " " ++ joinSpace pkgs

/-- The two conditional tool invocations of `install` (yumpkg5.py lines
344-358): the install bucket first, the downgrade bucket second, each one
issued only when its bucket is non-empty. -/
def installCmds (repo_arg : String) (skip_verify : Bool)
    (buckets : List String × List String) : List String :=
  (if buckets.1 = [] then []
   else [yumTxnCmd "install" repo_arg skip_verify buckets.1])
    ++ (if buckets.2 = [] then []
        else [yumTxnCmd "downgrade" repo_arg skip_verify buckets.2])

/-- Embedding of the version-folding block of `install` (yumpkg5.py lines
307-314).  The Bool component records whether the ignored-version warning
was logged; a `version` of `None` or `''` is falsy and leaves the parsed
targets untouched. -/
def applyVersionOption (name : String) (version : Option String)
    (pkgsGiven sourcesGiven : Bool)
    (pkg_params : List (String × Option String)) :
    List (String × Option String) × Bool :=
  match version with
  | none => (pkg_params, false)
  | some v =>
    if v = "" then (pkg_params, false)
    else if !pkgsGiven && !sourcesGiven then ([(name, some v)], false)
    else (pkg_params, true)

/-- Embedding of the snapshot diff computed inline by `upgrade`
(yumpkg5.py lines 383-397): one pass over `new`, each entry classified
against `old`. -/
def upgradeDiff (old new : List (String × String)) :
    List (String × String × String) :=
  new.filterMap (fun p =>
    match dictGet old p.1 with
    | some ov => if ov = p.2 then none else some (p.1, ov, p.2)
    | none => some (p.1, "", p.2))

/-- The external environment a removal observes: the installed snapshot
before and after the yum invocation. -/
structure PkgEnv where
  before : List (String × String)
  after : List (String × String)

/-- Embedding of `remove` (yumpkg5.py lines 400-414): the issued command
together with the `_list_removed` result; the keyword arguments are
accepted and ignored, as in the source. -/
def remove (pkg : String) (kwargs : List (String × String)) (env : PkgEnv) :
    String × List String :=
  ("yum -q -y remove \"" ++ pkg ++ "\"", list_removed env.before env.after)

/-- Embedding of `purge` (yumpkg5.py lines 417-427): `return remove(pkg)`,
the keyword arguments again accepted and dropped. -/
def purge (pkg : String) (kwargs : List (String × String)) (env : PkgEnv) :
    String × List String :=
  remove pkg [] env

/-- Lexicographic order on character lists, used to build a concrete
total version comparator. -/
def charListLt : List Char → List Char → Bool
  | [], [] => false
  | [], _ :: _ => true
  | _ :: _, [] => false
  | a :: as, b :: bs => decide (a < b) || (a == b && charListLt as bs)

/-- A concrete total comparator instantiating the external
`compareVersions` parameter: equal strings compare equal, otherwise the
lexicographic order of their characters decides. -/
def cmpV0 (a b : String) : Option Int :=
  some (if a = b then 0 else if charListLt a.toList b.toList then -1 else 1)

theorem dictGet_dictSet (d : List (String × String)) (k v n : String) :
    dictGet (dictSet d k v) n = if k = n then some v else dictGet d n := by
  induction d with
  | nil => simp [dictSet, dictGet]
  | cons p rest ih =>
    obtain ⟨a, b⟩ := p
    by_cases hak : a = k
    · subst hak
      by_cases han : a = n <;> simp [dictSet, dictGet, han]
    · by_cases han : a = n
      · subst han
        have : ¬ k = a := fun h => hak h.symm
        simp [dictSet, dictGet, hak, this]
      · simp [dictSet, dictGet, hak, han, ih]

theorem dictGet_foldlSet (updates : List (String × String × String))
    (d : List (String × String)) (n : String) :
    dictGet (updates.foldl (fun acc r => dictSet acc r.1 r.2.1) d) n =
      match lastAvailOpt n updates with
      | some v => some v
      | none => dictGet d n := by
  induction updates generalizing d with
  | nil => simp [lastAvailOpt]
  | cons r rest ih =>
    rw [List.foldl_cons, ih]
    cases h : lastAvailOpt n rest with
    | some v => simp [lastAvailOpt, h]
    | none =>
      by_cases hr : r.1 = n <;>
        simp [lastAvailOpt, h, hr, dictGet_dictSet]

theorem dictGet_foldlInit (names : List String)
    (d : List (String × String)) (n : String) :
    dictGet (names.foldl (fun acc nm => dictSet acc nm "") d) n =
      if n ∈ names then some "" else dictGet d n := by
  induction names generalizing d with
  | nil => simp
  | cons nm rest ih =>
    rw [List.foldl_cons, ih]
    by_cases h : n ∈ rest
    · simp [h]
    · by_cases hnm : nm = n
      · subst hnm
        simp [h, dictGet_dictSet]
      · have : ¬ n = nm := fun hx => hnm hx.symm
        simp [h, hnm, this, dictGet_dictSet]

theorem latest_version_single (n : String) (out : String) :
    latest_version [n] out = Sum.inl ((lastAvailOpt n (parseYum out)).getD "") := by
  unfold latest_version
  simp only [List.length_cons, List.length_nil, List.headD]
  rw [dictGet_foldlSet]
  cases h : lastAvailOpt n (parseYum out) with
  | some v => simp [h]
  | none => simp [h, dictGet_foldlInit, dictGet_dictSet]

theorem list_removed_eq (old new : List (String × String)) :
    list_removed old new
      = (old.map Prod.fst).filter (fun k => !((new.map Prod.fst).contains k)) := by
  induction old with
  | nil => simp [list_removed]
  | cons p rest ih =>
    by_cases h : p.1 ∈ new.map Prod.fst <;>
      simp [list_removed, h, ih, List.filter_cons]

theorem rpartBeforeAux_of_no_dot (l : List Char) (h : '.' ∉ l) :
    rpartBeforeAux l = none := by
  induction l with
  | nil => rfl
  | cons c rest ih =>
    have hc : ¬ (c == '.') = true := by
      simp only [beq_iff_eq]
      intro hx
      exact h (hx ▸ List.mem_cons_self c rest)
    have hr : rpartBeforeAux rest = none :=
      ih (fun hx => h (List.mem_cons_of_mem c hx))
    simp [rpartBeforeAux, hr, hc]

theorem installPartition_fst (cpuarch : String)
    (cmpV : String → String → Option Int) (old : List (String × String))
    (params : List (String × Option String)) :
    (installPartition cpuarch cmpV old params).1 = params.filterMap (fun p =>
      match p.2 with
      | none => some p.1
      | some v =>
        if installCond cmpV old p.1 v then some (pinnedTargetStr cpuarch p.1 v)
        else none) := by
  induction params with
  | nil => simp [installPartition]
  | cons p rest ih =>
    obtain ⟨pkgname, ver⟩ := p
    cases ver with
    | none => simp [installPartition, List.filterMap_cons, ih]
    | some v =>
      by_cases hc : installCond cmpV old pkgname v <;>
        simp [installPartition, List.filterMap_cons, hc, ih]

theorem installPartition_snd (cpuarch : String)
    (cmpV : String → String → Option Int) (old : List (String × String))
    (params : List (String × Option String)) :
    (installPartition cpuarch cmpV old params).2 = params.filterMap (fun p =>
      match p.2 with
      | none => none
      | some v =>
        if installCond cmpV old p.1 v then none
        else some (pinnedTargetStr cpuarch p.1 v)) := by
  induction params with
  | nil => simp [installPartition]
  | cons p rest ih =>
    obtain ⟨pkgname, ver⟩ := p
    cases ver with
    | none => simp [installPartition, List.filterMap_cons, ih]
    | some v =>
      by_cases hc : installCond cmpV old pkgname v <;>
        simp [installPartition, List.filterMap_cons, hc, ih]

/-- C1 (amended): in a repository-type install call a version-pinned
target is placed in the install bucket exactly when there is no currently
installed version or the comparator affirms `requested >= installed` (so
an installed version equal to the requested one goes to the install
bucket, not the downgrade bucket), and in the downgrade bucket exactly
otherwise; the install bucket is executed first and the downgrade bucket
second, each as a separate tool invocation and only when non-empty. -/
theorem claim_C1 (cpuarch : String) (cmpV : String → String → Option Int)
    (old : List (String × String)) (params : List (String × Option String))
    (repo_arg : String) (skip_verify : Bool) :
    ((installPartition cpuarch cmpV old params).1 = params.filterMap (fun p =>
      match p.2 with
      | none => some p.1
      | some v =>
        if installCond cmpV old p.1 v then some (pinnedTargetStr cpuarch p.1 v)
        else none))
    ∧ ((installPartition cpuarch cmpV old params).2 = params.filterMap (fun p =>
      match p.2 with
      | none => none
      | some v =>
        if installCond cmpV old p.1 v then none
        else some (pinnedTargetStr cpuarch p.1 v)))
    ∧ installCmds repo_arg skip_verify (installPartition cpuarch cmpV old params)
        = (if (installPartition cpuarch cmpV old params).1 = [] then []
           else [yumTxnCmd "install" repo_arg skip_verify
                  (installPartition cpuarch cmpV old params).1])
          ++ (if (installPartition cpuarch cmpV old params).2 = [] then []
              else [yumTxnCmd "downgrade" repo_arg skip_verify
                     (installPartition cpuarch cmpV old params).2]) :=
  ⟨installPartition_fst cpuarch cmpV old params,
   installPartition_snd cpuarch cmpV old params, rfl⟩

/-- C1 counterexample: with a comparator under which `"2.0-1"` compares
equal to itself (result 0, hence installed `>=` requested), the pinned
target `foo-2.0-1` lands in the INSTALL bucket and the downgrade bucket
stays empty — the claim instead requires any target whose installed
version is `>=` the requested one to land in the downgrade bucket. -/
theorem claim_C1_counterexample :
    cmpV0 "2.0-1" "2.0-1" = some 0
    ∧ installPartition "" cmpV0 [("foo", "2.0-1")] [("foo", some "2.0-1")]
        = (["\"foo-2.0-1\""], [])
    ∧ "\"foo-2.0-1\""
        ∉ (installPartition "" cmpV0 [("foo", "2.0-1")] [("foo", some "2.0-1")]).2 := by
  refine ⟨by decide, by decide, by decide⟩

/-- C2: the change set `upgrade` computes from two snapshots contains the
entry `(k, old, new)` exactly when `after` maps `k` to `new` and either
`before` maps `k` to a different `old`, or `k` is absent from `before`
and `old` is the empty string; names present only in `before` never
appear, and entries with equal versions on both sides are omitted.
Moreover a one-key version change yields exactly that one entry. -/
theorem claim_C2 :
    (∀ (old new : List (String × String)) (k o n : String),
      (k, o, n) ∈ upgradeDiff old new ↔
        ((k, n) ∈ new
          ∧ ((dictGet old k = some o ∧ o ≠ n)
              ∨ (dictGet old k = none ∧ o = ""))))
    ∧ (∀ (k v1 v2 : String), v1 ≠ v2 →
        upgradeDiff [(k, v1)] [(k, v2)] = [(k, v1, v2)]) := by
  constructor
  · intro old new k o n
    unfold upgradeDiff
    rw [List.mem_filterMap]
    constructor
    · rintro ⟨⟨k', n'⟩, hmem, hf⟩
      simp only at hf
      cases hl : dictGet old k' with
      | none =>
        rw [hl] at hf
        simp only [Option.some.injEq, Prod.mk.injEq] at hf
        obtain ⟨hk, ho, hn⟩ := hf
        subst hk; subst hn
        exact ⟨hmem, Or.inr ⟨hl, ho.symm⟩⟩
      | some ov =>
        rw [hl] at hf
        by_cases he : ov = n'
        · simp [he] at hf
        · simp only [he, if_false, Option.some.injEq, Prod.mk.injEq] at hf
          obtain ⟨hk, ho, hn⟩ := hf
          subst hk; subst hn; subst ho
          exact ⟨hmem, Or.inl ⟨hl, he⟩⟩
    · rintro ⟨hmem, ⟨hl, hne⟩ | ⟨hl, ho⟩⟩
      · exact ⟨(k, n), hmem, by simp [hl, hne]⟩
      · exact ⟨(k, n), hmem, by simp [hl, ho]⟩
  · intro k v1 v2 h
    simp [upgradeDiff, dictGet, h]

/-- C2 witness: the single-key version change `1 -> 2` produces exactly
the one entry `(k, 1, 2)`. -/
theorem claim_C2_witness :
    upgradeDiff [("k", "1")] [("k", "2")] = [("k", "1", "2")] :=
  claim_C2.2 "k" "1" "2" (by decide)

/-- C3 (amended): for every accepted parser input line whose name-arch
token contains no dot, the parsed record's name is the EMPTY string
(Python `rpartition('.')[0]` yields `''` when the separator is absent),
not the whole token. -/
theorem claim_C3 (line nameArch ver st : String)
    (hsw : startsWithStr line "Loaded plugin" = false)
    (hsp : pySplit line = [nameArch, ver, st])
    (hdot : '.' ∉ nameArch.toList) :
    parseLine line = some ("", ver, st) := by
  unfold parseLine
  rw [hsw, hsp]
  simp only [Bool.false_eq_true, if_false]
  unfold rpartitionBeforeDot
  rw [rpartBeforeAux_of_no_dot nameArch.toList hdot]

/-- C3 witness: the dotless line `foo 1.2.3 installed` is accepted and
parses with an empty name. -/
theorem claim_C3_witness :
    parseLine "foo 1.2.3 installed" = some ("", "1.2.3", "installed") :=
  claim_C3 "foo 1.2.3 installed" "foo" "1.2.3" "installed"
    (by decide) (by decide) (by decide)

/-- C3 counterexample: parsing the dotless line `foo 1.2.3 installed`
yields the record name `""`, not `"foo"` as the claim states. -/
theorem claim_C3_counterexample :
    parseYum "foo 1.2.3 installed" = [("", "1.2.3", "installed")]
    ∧ parseYum "foo 1.2.3 installed" ≠ [("foo", "1.2.3", "installed")] := by
  refine ⟨by decide, by decide⟩

/-- C4: if `fromrepo` (or its legacy alias `repo`) is non-empty, the repo
argument string disables all repos and enables exactly the effective repo
name, regardless of any `enablerepo`/`disablerepo` also supplied;
otherwise the disable token (when `disablerepo` is set) precedes the
enable token (when `enablerepo` is set) and the result is empty when
neither is set. -/
theorem claim_C4 (f r d e : String) :
    ((f ≠ "" ∨ r ≠ "") →
      get_repo_options f r d e
        = "--disablerepo=\"*\" --enablerepo=\"" ++ (if f ≠ "" then f else r) ++ "\"")
    ∧ (f = "" → r = "" →
      get_repo_options f r d e
        = (if d ≠ "" then "--disablerepo=\"" ++ d ++ "\" " else "")
          ++ (if e ≠ "" then "--enablerepo=\"" ++ e ++ "\" " else "")) := by
  constructor
  · intro h
    by_cases hf : f = ""
    · have hr : r ≠ "" := by
        rcases h with h | h
        · exact absurd hf h
        · exact h
      simp [get_repo_options, hf, hr]
    · simp [get_repo_options, hf]
  · intro hf hr
    simp [get_repo_options, hf, hr]

/-- C4 witness: `fromrepo=epel-testing` wins over the supplied
enable/disable pair, and without it the disable token precedes the
enable token. -/
theorem claim_C4_witness :
    (get_repo_options "epel-testing" "" "r2" "r1"
      = "--disablerepo=\"*\" --enablerepo=\""
          ++ (if "epel-testing" ≠ "" then "epel-testing" else "") ++ "\"")
    ∧ (get_repo_options "" "" "r2" "r1"
      = (if "r2" ≠ "" then "--disablerepo=\"" ++ "r2" ++ "\" " else "")
          ++ (if "r1" ≠ "" then "--enablerepo=\"" ++ "r1" ++ "\" " else "")) :=
  ⟨(claim_C4 "epel-testing" "" "r2" "r1").1 (Or.inl (by decide)),
   (claim_C4 "" "" "r2" "r1").2 rfl rfl⟩

/-- C5: the yum listing parser accepts exactly the lines that do not
begin with the plugin-notice chatter and split into exactly three
whitespace-separated tokens; every other line shape is silently skipped.
In particular the two-line listing of the claim yields the single record
`("foo", "1.2.3", "installed")`. -/
theorem claim_C5 :
    (∀ line : String,
      (parseLine line).isSome ↔
        (startsWithStr line "Loaded plugin" = false ∧ (pySplit line).length = 3))
    ∧ parseYum "foo.x86_64  1.2.3  installed\nLoaded plugins: fastestmirror\n"
        = [("foo", "1.2.3", "installed")] := by
  constructor
  · intro line
    unfold parseLine
    cases hsw : startsWithStr line "Loaded plugin"
    · rcases hsp : pySplit line with _ | ⟨a, _ | ⟨b, _ | ⟨c, _ | ⟨d, t⟩⟩⟩⟩ <;>
        simp [hsp]
    · simp
  · decide

/-- C6: the removed-package list contains exactly the names of `before`
whose key is absent from `after`, in `before`'s iteration order (it is a
sublist of `before`'s key sequence); in particular a one-key `before`
whose key is missing from `after` yields exactly that key. -/
theorem claim_C6 :
    (∀ (old new : List (String × String)) (k : String),
      k ∈ list_removed old new ↔ (k ∈ old.map Prod.fst ∧ k ∉ new.map Prod.fst))
    ∧ (∀ (old new : List (String × String)),
      (list_removed old new).Sublist (old.map Prod.fst))
    ∧ (∀ (k v : String) (new : List (String × String)),
      k ∉ new.map Prod.fst → list_removed [(k, v)] new = [k]) := by
  refine ⟨?_, ?_, ?_⟩
  · intro old new k
    rw [list_removed_eq, List.mem_filter]
    simp
  · intro old new
    rw [list_removed_eq]
    exact List.filter_sublist _
  · intro k v new h
    simp [list_removed, h]

/-- C6 witness: `before = [a -> 1]`, `after = [b -> 2]` removes exactly
`a`. -/
theorem claim_C6_witness :
    list_removed [("a", "1")] [("b", "2")] = ["a"] :=
  claim_C6.2.2 "a" "1" [("b", "2")] (by decide)

/-- C7: a non-empty version option together with a single scalar name and
no pkgs/sources list is folded into the single target (the target set
becomes exactly that one pinned name) with no warning; a version option
together with pkgs or sources leaves the targets untouched and sets the
warning flag — the function is total, so the call never fails. -/
theorem claim_C7 (name v : String) (pg sg : Bool)
    (pp : List (String × Option String)) :
    (v ≠ "" → pg = false → sg = false →
      applyVersionOption name (some v) pg sg pp = ([(name, some v)], false))
    ∧ (v ≠ "" → (pg = true ∨ sg = true) →
      applyVersionOption name (some v) pg sg pp = (pp, true)) := by
  constructor
  · intro hv hp hs
    subst hp; subst hs
    simp [applyVersionOption, hv]
  · intro hv h
    rcases h with h | h <;> subst h <;> simp [applyVersionOption, hv]

/-- C7 witness: the version folds into a lone scalar target, and is
ignored with a warning when a pkgs list is present. -/
theorem claim_C7_witness :
    (applyVersionOption "foo" (some "2.0-1") false false []
      = ([("foo", some "2.0-1")], false))
    ∧ (applyVersionOption "foo" (some "2.0-1") true false [("bar", none)]
      = ([("bar", none)], true)) :=
  ⟨(claim_C7 "foo" "2.0-1" false false []).1 (by decide) rfl rfl,
   (claim_C7 "foo" "2.0-1" true false [("bar", none)]).2 (by decide) (Or.inl rfl)⟩

/-- C8: `upgrade_available name` is true exactly when the single-name
`latest_version` query — the version carried by the last listing row for
`name`, or the empty string when no row matches — is non-empty; no
comparison against the installed version is involved (the result is fully
determined by the available listing). -/
theorem claim_C8 (name out : String) :
    upgrade_available name out = true
      ↔ (lastAvailOpt name (parseYum out)).getD "" ≠ "" := by
  unfold upgrade_available
  rw [latest_version_single]
  simp

/-- C9: `purge` returns exactly what `remove` returns on the same package
name, keyword arguments and external environment — it is a synonym. -/
theorem claim_C9 (pkg : String) (kwargs : List (String × String))
    (env : PkgEnv) : purge pkg kwargs env = remove pkg kwargs env := rfl

/-- C10: the shape of `latest_version`'s result depends on the number of
requested names: zero names give the empty string, one name gives the
single version string (empty when no listing row matches), and two or
more names give a dict in which every requested name appears, holding the
version of the last matching listing row or the empty string it was
initialized with. -/
theorem claim_C10 :
    (∀ out : String, latest_version [] out = Sum.inl "")
    ∧ (∀ n out : String,
        latest_version [n] out
          = Sum.inl ((lastAvailOpt n (parseYum out)).getD ""))
    ∧ (∀ (names : List String) (out : String), 2 ≤ names.length →
        ∃ d, latest_version names out = Sum.inr d
          ∧ ∀ n ∈ names,
              dictGet d n = some ((lastAvailOpt n (parseYum out)).getD "")) := by
  refine ⟨?_, ?_, ?_⟩
  · intro out
    simp [latest_version]
  · intro n out
    exact latest_version_single n out
  · intro names out h
    have h0 : ¬ names.length = 0 := by omega
    have h1 : ¬ names.length = 1 := by omega
    refine ⟨(parseYum out).foldl (fun d r => dictSet d r.1 r.2.1)
      (names.foldl (fun d nm => dictSet d nm "") []), ?_, ?_⟩
    · unfold latest_version
      simp [h0, h1]
    · intro n hn
      rw [dictGet_foldlSet]
      cases hx : lastAvailOpt n (parseYum out) with
      | some v => simp [hx]
      | none => simp [hx, dictGet_foldlInit, hn]

/-- C10 witness: two requested names against an empty listing produce a
dict holding the empty string for each of them. -/
theorem claim_C10_witness :
    ∃ d, latest_version ["a", "b"] "" = Sum.inr d
      ∧ ∀ n ∈ ["a", "b"],
          dictGet d n = some ((lastAvailOpt n (parseYum "")).getD "") :=
  claim_C10.2.2 ["a", "b"] "" (by decide)
